import Mathlib

/-!
Verification of the south-korea-law-mcp ingestion pipeline.

Shallow embedding of the pipeline's pure core, translated from:
  - `scripts/lib/fetcher.ts`  — rate-limited HTTP client (`fetchWithRateLimit`)
  - `scripts/lib/parser.ts`   — listing parser (`parseLawList`) and law XML
    parser (`parseLawXml`) with its helpers (`formatDate`,
    `inferDocumentType`, `buildShortName`)
  - `scripts/ingest.ts`       — content-phase orchestration (`fetchAndParseLaws`)
  - `scripts/build-db.ts`     — provision dedup (`dedupeProvisions`) and the
    transactional document insert
  - `scripts/check-updates.ts`— drift/update checker exit codes

XML parsing itself (fast-xml-parser) and the `extractText` fallback chains
across Korean/romanized keys are abstracted: the embedding's input structures
hold the already-extracted string fields (with `?? ''` defaults applied), and
the functions below mirror everything the source does from that point on.
-/

/-- Whitespace per the JavaScript `\s` character class and `String.prototype.trim`
(space, tab, LF, VT, FF, CR, NBSP, Ogham space, U+2000–U+200A, LS, PS, NNBSP,
MMSP, ideographic space, BOM). -/
def isJsWs (c : Char) : Bool :=
  c = ' ' || c = '\t' || c = '\n' || c = '\x0b' || c = '\x0c' || c = '\r' ||
  c = '\u00A0' || c = '\u1680' || ('\u2000' ≤ c && c ≤ '\u200A') ||
  c = '\u2028' || c = '\u2029' || c = '\u202F' || c = '\u205F' ||
  c = '\u3000' || c = '\uFEFF'

mutual

/-- Character-level model of `str.replace(/\s+/g, ' ')`: each maximal run of
whitespace becomes a single space. -/
def collapseRuns : List Char → List Char
  | [] => []
  | c :: rest =>
    if isJsWs c then ' ' :: collapseAfterWs rest else c :: collapseRuns rest

/-- State of `collapseRuns` while inside a whitespace run whose single
replacement space has already been emitted. -/
def collapseAfterWs : List Char → List Char
  | [] => []
  | c :: rest =>
    if isJsWs c then collapseAfterWs rest else c :: collapseRuns rest

end

/-- Drop trailing whitespace (the right half of JavaScript `trim`). -/
def trimRightWs : List Char → List Char
  | [] => []
  | c :: rest =>
    match trimRightWs rest with
    | [] => if isJsWs c then [] else [c]
    | r => c :: r

/-- Character-level model of JavaScript `String.prototype.trim`. -/
def jsTrim (l : List Char) : List Char :=
  trimRightWs (l.dropWhile isJsWs)

/-- JavaScript `s.trim()` on strings. -/
def jsTrimStr (s : String) : String :=
  ⟨jsTrim s.data⟩

/-- The idiom `text.replace(/\s+/g, ' ').trim()`: `normalizeWhitespace` in
`build-db.ts`, inlined verbatim in `parser.ts` for titles and provision
content. -/
def normalizeWhitespace (s : String) : String :=
  ⟨jsTrim (collapseRuns s.data)⟩

/-- Hyphenated date assembly, from the template literal in `formatDate`:
`clean.slice(0,4) + '-' + clean.slice(4,6) + '-' + clean.slice(6,8)`. -/
def hyphenateDate (clean : List Char) : String :=
  ⟨clean.take 4⟩ ++ "-" ++ ⟨(clean.drop 4).take 2⟩ ++ "-" ++ ⟨(clean.drop 6).take 2⟩

/-- `formatDate` from `parser.ts`: short strings pass through; otherwise the
non-digits are stripped and, when exactly 8 digits remain, they are rendered
as `YYYY-MM-DD`; anything else passes through. -/
def formatDate (dateStr : String) : String :=
  if dateStr.length < 8 then dateStr
  else
    let clean := dateStr.data.filter Char.isDigit
    if clean.length = 8 then hyphenateDate clean
    else dateStr

-- ─────────────────────────────────────────────────────────────────────────────
-- Listing parser (parseLawList, parser.ts)
-- ─────────────────────────────────────────────────────────────────────────────

/-- One raw `<law>` element of a listing response, after `extractText` and the
`?? ''` defaults have been applied to each field. -/
structure RawLawEntry where
  title : String
  lawId : String
  lawNumber : String
  promulgationDate : String
  enforcementDate : String
  lawType : String
  deriving DecidableEq, Repr

/-- A parsed listing response root: `totalCnt` (numeric value of the count
field, `'0'` when absent) and the raw entries. `upstreamHasNextPage` stands
for any pagination flag the upstream payload may carry; the parser never
reads it. -/
structure LawListXml where
  totalCnt : Nat
  entries : List RawLawEntry
  upstreamHasNextPage : Option Bool
  deriving DecidableEq, Repr

/-- `LawIndexEntry` from `parser.ts`. -/
structure LawIndexEntry where
  title : String
  lawId : String
  lawNumber : String
  promulgationDate : String
  enforcementDate : String
  lawType : String
  url : String
  deriving DecidableEq, Repr

/-- `LawListResult` from `parser.ts`. -/
structure LawListResult where
  entries : List LawIndexEntry
  totalCount : Nat
  hasNextPage : Bool
  deriving DecidableEq, Repr

/-- `parseLawList` from `parser.ts`: entries with an empty title are dropped,
titles are whitespace-normalized, the URL is synthesized from `lawId`, and
`hasNextPage` is computed from the entry count and `totalCnt`
(`pageSize = 100`). -/
def parseLawList (root : LawListXml) : LawListResult :=
  let entries : List LawIndexEntry := root.entries.filterMap fun e =>
    if e.title = "" then none
    else some
      { title := normalizeWhitespace e.title
        lawId := e.lawId
        lawNumber := e.lawNumber
        promulgationDate := e.promulgationDate
        enforcementDate := e.enforcementDate
        lawType := e.lawType
        url := "https://www.law.go.kr/LSW/lsInfoP.do?lsiSeq=" ++ e.lawId }
  let pageSize := 100
  { entries := entries
    totalCount := root.totalCnt
    hasNextPage := decide (pageSize ≤ entries.length) && decide (entries.length < root.totalCnt) }

-- ─────────────────────────────────────────────────────────────────────────────
-- Law document parser (parseLawXml, parser.ts)
-- ─────────────────────────────────────────────────────────────────────────────

/-- The `type` union of `ParsedLaw`. -/
inductive DocType where
  | statute
  | presidential_decree
  | ministerial_ordinance
  deriving DecidableEq, Repr

/-- The `status` union of `ParsedLaw` / `DocumentSeed`. -/
inductive LawStatus where
  | in_force
  | amended
  | repealed
  | not_yet_in_force
  deriving DecidableEq, Repr

/-- `ParsedProvision` from `parser.ts` (`sectionLabel` stands for the source
field `section`, a Lean keyword). -/
structure ParsedProvision where
  provision_ref : String
  sectionLabel : String
  title : String
  content : String
  deriving DecidableEq, Repr

/-- `ParsedLaw` from `parser.ts`. -/
structure ParsedLaw where
  id : String
  type : DocType
  title : String
  title_en : String
  short_name : String
  law_number : String
  status : LawStatus
  issued_date : String
  in_force_date : String
  url : String
  provisions : List ParsedProvision
  deriving DecidableEq, Repr

/-- One `항` (paragraph) node after text extraction: its own content and its
`호` (item) contents. -/
structure Paragraph where
  content : String
  items : List String
  deriving DecidableEq, Repr

/-- One `조문단위` (article) node after text extraction. -/
structure Article where
  number : String
  title : String
  content : String
  paragraphs : List Paragraph
  deriving DecidableEq, Repr

/-- A parsed law-detail XML root, after `extractText` and `?? ''` defaults. -/
structure LawXml where
  title : String
  titleEn : String
  lawNumber : String
  promulgationDate : String
  enforcementDate : String
  lawType : String
  articles : List Article
  deriving DecidableEq, Repr

/-- Model of the JavaScript substring-matching regex test `/pat/.test(s)`
for a literal pattern. -/
def strContains (s pat : String) : Bool :=
  decide (pat.data <:+: s.data)

/-- `inferDocumentType` from `parser.ts`: substring tests on the upstream
free-text category. -/
def inferDocumentType (lawType : String) : DocType :=
  if strContains lawType "대통령령" then .presidential_decree
  else if strContains lawType "부령" || strContains lawType "총리령" then
    .ministerial_ordinance
  else .statute

/-- The fixed abbreviation table of `buildShortName`. -/
def shortNameAbbrevs : List (String × String) :=
  [("개인정보 보호법", "PIPA"),
   ("정보통신망 이용촉진 및 정보보호 등에 관한 법률", "Network Act"),
   ("신용정보의 이용 및 보호에 관한 법률", "Credit Information Act"),
   ("전자정부법", "E-Government Act"),
   ("지능정보화 기본법", "Intelligent Informatization Act")]

/-- `buildShortName` from `parser.ts`: table lookup, else
`title.substring(0, 30).trim()`. -/
def buildShortName (title : String) : String :=
  match (shortNameAbbrevs.find? fun kv => kv.1 = title) with
  | some kv => kv.2
  | none => jsTrimStr ⟨title.data.take 30⟩

/-- The `호` (item) inner loop of `parseLawXml`: items with non-blank content
are appended on their own line indented by two spaces. -/
def appendItems (acc : String) (items : List String) : String :=
  items.foldl (fun acc itemContent =>
    if jsTrimStr itemContent ≠ "" then acc ++ "\n  " ++ itemContent else acc) acc

/-- The `항` (paragraph) loop body of `parseLawXml`: a non-blank paragraph is
appended on a new line, then its items. -/
def appendParagraph (acc : String) (para : Paragraph) : String :=
  appendItems
    (if jsTrimStr para.content ≠ "" then acc ++ "\n" ++ para.content else acc)
    para.items

/-- The `fullContent` accumulation of `parseLawXml` for one article. -/
def assembleContent (article : Article) : String :=
  article.paragraphs.foldl appendParagraph article.content

/-- The per-article body of the `parseLawXml` loop: `continue` becomes `none`,
`provisions.push` becomes `some`. -/
def articleToProvision (article : Article) : Option ParsedProvision :=
  if article.number = "" && article.content = "" then none
  else
    let cleanNumber := jsTrimStr ⟨article.number.data.filter fun c => !(c = '제' || c = '조')⟩
    let fullContent := assembleContent article
    if jsTrimStr fullContent ≠ "" then
      some
        { provision_ref := "art-" ++ cleanNumber
          sectionLabel := "제" ++ cleanNumber ++ "조"
          title := article.title
          content := normalizeWhitespace fullContent }
    else none

/-- `parseLawXml` from `parser.ts`. -/
def parseLawXml (x : LawXml) (lawId : String) : ParsedLaw :=
  { id := "act-" ++ (if x.lawNumber = "" then lawId else x.lawNumber)
    type := inferDocumentType x.lawType
    title := x.title
    title_en := x.titleEn
    short_name := buildShortName x.title
    law_number := x.lawNumber
    status := .in_force
    issued_date := formatDate x.promulgationDate
    in_force_date := formatDate x.enforcementDate
    url := "https://www.law.go.kr/LSW/lsInfoP.do?lsiSeq=" ++ lawId
    provisions := x.articles.filterMap articleToProvision }

-- ─────────────────────────────────────────────────────────────────────────────
-- Rate-limited fetch client (fetchWithRateLimit, fetcher.ts)
-- ─────────────────────────────────────────────────────────────────────────────

/-- `FetchResult` from `fetcher.ts`. -/
structure FetchResult where
  status : Nat
  body : String
  contentType : String
  deriving DecidableEq, Repr

/-- What one call of `fetchWithRateLimit` can do: return a result normally or
raise, in either case after a number of request attempts with a list of
backoff sleeps (milliseconds, in order) between them. -/
inductive FetchOutcome where
  | ok (result : FetchResult) (attempts : Nat) (delays : List Nat)
  | thrown (attempts : Nat) (delays : List Nat)
  deriving DecidableEq, Repr

/-- The status test `response.status === 429 || response.status >= 500`. -/
def isRetryStatus (status : Nat) : Bool :=
  status = 429 || 500 ≤ status

/-- The `for (let attempt = 0; attempt <= maxRetries; attempt++)` loop of
`fetchWithRateLimit`, with the responses the network would give at each
attempt supplied as a function. `fuel` counts the loop iterations still
allowed (`maxRetries + 1 - attempt`); when it runs out the loop exits and the
function reaches the `throw new Error(...)` after the loop. -/
def fetchLoop (responses : Nat → FetchResult) (maxRetries : Nat) :
    Nat → Nat → FetchOutcome
  | 0, attempt => .thrown attempt []
  | fuel + 1, attempt =>
    let response := responses attempt
    if isRetryStatus response.status && decide (attempt < maxRetries) then
      let backoff := 2 ^ (attempt + 1) * 1000
      match fetchLoop responses maxRetries fuel (attempt + 1) with
      | .ok r n ds => .ok r n (backoff :: ds)
      | .thrown n ds => .thrown n (backoff :: ds)
    else .ok response (attempt + 1) []

/-- `fetchWithRateLimit` from `fetcher.ts` (default `maxRetries = 3`),
abstracting the throttle sleep and the real network: `responses attempt` is
the response the `fetch` call of that attempt would produce. -/
def fetchWithRateLimit (responses : Nat → FetchResult) (maxRetries : Nat := 3) :
    FetchOutcome :=
  fetchLoop responses maxRetries (maxRetries + 1) 0

-- ─────────────────────────────────────────────────────────────────────────────
-- Ingestion orchestrator, content phase (fetchAndParseLaws, ingest.ts)
-- ─────────────────────────────────────────────────────────────────────────────

/-- The minimal stub seed `fetchAndParseLaws` writes on HTTP 404. -/
def minimalStubSeed (law : LawIndexEntry) : ParsedLaw :=
  { id := "act-" ++ (if law.lawNumber = "" then law.lawId else law.lawNumber)
    type := .statute
    title := law.title
    title_en := ""
    short_name := ""
    law_number := law.lawNumber
    status := .in_force
    issued_date := law.promulgationDate
    in_force_date := law.enforcementDate
    url := law.url
    provisions := [] }

/-- The seed filename `${law.lawId}.json` the content phase writes under
`data/seed/`. -/
def seedFileName (law : LawIndexEntry) : String :=
  law.lawId ++ ".json"

/-- Effect of one iteration of the `fetchAndParseLaws` loop on the counters
and the seed directory. -/
structure StepResult where
  seedWritten : Option ParsedLaw
  processedInc : Nat
  skippedInc : Nat
  failedInc : Nat
  provisionsInc : Nat
  deriving DecidableEq, Repr

/-- One iteration of the `fetchAndParseLaws` loop for one discovered law.
`fetch` is what `fetchLawDetail` does: `.error ()` when the fetch itself
throws, otherwise the HTTP status paired with how `parseLawXml` on the body
would end (`.error ()` when it would raise; it is consulted only in the
200 branch, as in the source). -/
def contentStep (law : LawIndexEntry) (seedExists : Bool)
    (fetch : Except Unit (Nat × Except Unit LawXml)) : StepResult :=
  if seedExists then
    { seedWritten := none, processedInc := 1, skippedInc := 1,
      failedInc := 0, provisionsInc := 0 }
  else
    match fetch with
    | .error _ =>
      { seedWritten := none, processedInc := 1, skippedInc := 0,
        failedInc := 1, provisionsInc := 0 }
    | .ok (status, body) =>
      if status ≠ 200 then
        if status = 404 then
          { seedWritten := some (minimalStubSeed law), processedInc := 1,
            skippedInc := 0, failedInc := 1, provisionsInc := 0 }
        else
          { seedWritten := none, processedInc := 1, skippedInc := 0,
            failedInc := 1, provisionsInc := 0 }
      else
        match body with
        | .ok x =>
          let parsed := parseLawXml x law.lawId
          { seedWritten := some parsed, processedInc := 1, skippedInc := 0,
            failedInc := 0, provisionsInc := parsed.provisions.length }
        | .error _ =>
          { seedWritten := none, processedInc := 1, skippedInc := 0,
            failedInc := 1, provisionsInc := 0 }

-- ─────────────────────────────────────────────────────────────────────────────
-- Index builder (build-db.ts)
-- ─────────────────────────────────────────────────────────────────────────────

/-- `ProvisionSeed` from `build-db.ts` (optional fields as `Option`;
`metadata` omitted — `dedupeProvisions` copies it through untouched). -/
structure ProvisionSeed where
  provision_ref : String
  chapter : Option String
  sectionLabel : String
  title : Option String
  content : String
  content_en : Option String
  deriving DecidableEq, Repr

/-- JavaScript `Map.get`. -/
def mapGet (m : List (String × ProvisionSeed)) (k : String) : Option ProvisionSeed :=
  (m.find? fun kv => kv.1 = k).map (·.2)

/-- JavaScript `Map.set`: an existing key keeps its position and gets the new
value; a new key is appended. -/
def mapSet (m : List (String × ProvisionSeed)) (k : String) (v : ProvisionSeed) :
    List (String × ProvisionSeed) :=
  match m with
  | [] => [(k, v)]
  | kv :: rest => if kv.1 = k then (k, v) :: rest else kv :: mapSet rest k v

/-- The body of the `for (const provision of provisions)` loop of
`dedupeProvisions`. -/
def dedupeStep (m : List (String × ProvisionSeed)) (provision : ProvisionSeed) :
    List (String × ProvisionSeed) :=
  let ref := jsTrimStr provision.provision_ref
  match mapGet m ref with
  | none => mapSet m ref { provision with provision_ref := ref }
  | some existing =>
    if (normalizeWhitespace provision.content).length >
        (normalizeWhitespace existing.content).length then
      mapSet m ref
        { provision with
          provision_ref := ref
          title := provision.title.orElse fun _ => existing.title }
    else m

/-- `dedupeProvisions` from `build-db.ts`. -/
def dedupeProvisions (provisions : List ProvisionSeed) : List ProvisionSeed :=
  (provisions.foldl dedupeStep []).map (·.2)

/-- The `insertDoc.run` calls of the transactional load in `buildDatabase`:
`legal_documents.id` is the `PRIMARY KEY`, so inserting a seed whose id is
already in the table raises, and the surrounding `db.transaction` aborts as a
whole. The result is the committed list of ids, or `.error` with the
offending id. -/
def insertDocumentsGo (table : List String) : List ParsedLaw → Except String (List String)
  | [] => .ok table
  | seed :: rest =>
    if table.contains seed.id then .error seed.id
    else insertDocumentsGo (table ++ [seed.id]) rest

/-- The committed table of document ids, starting from the empty, freshly
recreated `legal_documents` table. -/
def insertDocuments (seeds : List ParsedLaw) : Except String (List String) :=
  insertDocumentsGo [] seeds

-- ─────────────────────────────────────────────────────────────────────────────
-- Drift/update checker (check-updates.ts)
-- ─────────────────────────────────────────────────────────────────────────────

/-- `UpdateHit` from `check-updates.ts` (without the unused
`local_updated`). -/
structure UpdateHit where
  document_id : String
  title : String
  remote_updated : String
  deriving DecidableEq, Repr

/-- The derived document id `` `act-${entry.lawNumber || entry.lawId}` `` as
the checker computes it. -/
def checkerDocumentId (entry : LawIndexEntry) : String :=
  "act-" ++ (if entry.lawNumber = "" then entry.lawId else entry.lawNumber)

/-- The `newLaws` accumulation of the checker's `main`: every discovered
entry whose derived id is not in the local document-id set. -/
def newLaws (localDocs : List String) (recentEntries : List LawIndexEntry) :
    List UpdateHit :=
  recentEntries.filterMap fun entry =>
    let documentId := checkerDocumentId entry
    if localDocs.contains documentId then none
    else some
      { document_id := documentId
        title := entry.title
        remote_updated := entry.enforcementDate }

/-- One run of the checker. `runError` is any error thrown after the store
existence check (network, parse, database), caught by `main().catch` which
exits 2. -/
structure CheckRun where
  dbExists : Bool
  runError : Bool
  localDocs : List String
  recentEntries : List LawIndexEntry
  deriving Repr

/-- The exit code of `check-updates.ts` (`updatedLaws` is always empty in the
source, so only `newLaws` decides between 0 and 1). -/
def checkExitCode (run : CheckRun) : Nat :=
  if !run.dbExists then 2
  else if run.runError then 2
  else if (newLaws run.localDocs run.recentEntries).length > 0 then 1
  else 0

-- ─────────────────────────────────────────────────────────────────────────────
-- Spec-side definitions (for refinement comparisons)
-- ─────────────────────────────────────────────────────────────────────────────

/-- Spec-side rendering of a paragraph's items: each item with non-blank
content goes on its own line indented by two spaces. -/
def specRenderItems : List String → String
  | [] => ""
  | itemContent :: rest =>
    (if jsTrimStr itemContent ≠ "" then "\n  " ++ itemContent else "") ++
      specRenderItems rest

/-- Spec-side rendering of an article's paragraphs: each paragraph with
non-blank content goes on a new line, followed by its items. -/
def specRenderParagraphs : List Paragraph → String
  | [] => ""
  | para :: rest =>
    (if jsTrimStr para.content ≠ "" then "\n" ++ para.content else "") ++
      specRenderItems para.items ++ specRenderParagraphs rest

/-- Spec-side flattening of one article, following §4.3 of the spec: the
article's own content is the base, paragraphs follow on new lines, items on
their own indented lines. -/
def specFlatten (article : Article) : String :=
  article.content ++ specRenderParagraphs article.paragraphs

/-- No two adjacent characters are both whitespace. -/
def noConsecWs : List Char → Bool
  | [] => true
  | [_] => true
  | a :: b :: rest => !(isJsWs a && isJsWs b) && noConsecWs (b :: rest)


-- ─────────────────────────────────────────────────────────────────────────────
-- Helper lemmas on the whitespace machinery
-- ─────────────────────────────────────────────────────────────────────────────

theorem trimRightWs_cons_nil {c : Char} {rest : List Char}
    (h : trimRightWs rest = []) :
    trimRightWs (c :: rest) = if isJsWs c then [] else [c] := by
  rw [trimRightWs, h]

theorem trimRightWs_cons_cons {c d : Char} {rest t : List Char}
    (h : trimRightWs rest = d :: t) :
    trimRightWs (c :: rest) = c :: d :: t := by
  rw [trimRightWs, h]

theorem noConsecWs_tail {a : Char} {l : List Char}
    (h : noConsecWs (a :: l) = true) : noConsecWs l = true := by
  cases l with
  | nil => rfl
  | cons b t =>
    simp only [noConsecWs, Bool.and_eq_true] at h
    exact h.2

theorem noConsecWs_cons_of {a : Char} {l : List Char}
    (hhead : ∀ c, l.head? = some c → (isJsWs a && isJsWs c) = false)
    (hl : noConsecWs l = true) : noConsecWs (a :: l) = true := by
  cases l with
  | nil => rfl
  | cons b t =>
    have hb := hhead b rfl
    simp [noConsecWs, hb, hl]

theorem trimRightWs_eq_nil_iff (l : List Char) :
    trimRightWs l = [] ↔ ∀ c ∈ l, isJsWs c = true := by
  induction l with
  | nil => simp [trimRightWs]
  | cons c rest ih =>
    cases h : trimRightWs rest with
    | nil =>
      have hall : ∀ c ∈ rest, isJsWs c = true := ih.mp h
      rw [trimRightWs_cons_nil h]
      by_cases hc : isJsWs c = true
      · simp only [hc, if_true, List.forall_mem_cons, true_iff]
        exact ⟨trivial, hall⟩
      · simp [hc]
    | cons d t =>
      have hnot : ¬ ∀ c ∈ rest, isJsWs c = true := by
        intro hall
        rw [ih.mpr hall] at h
        exact List.noConfusion h
      rw [trimRightWs_cons_cons h]
      simp only [List.forall_mem_cons]
      constructor
      · intro habs; exact absurd habs (by simp)
      · intro ⟨_, hrest⟩; exact absurd hrest hnot

theorem trimRightWs_head? {l : List Char} (h : trimRightWs l ≠ []) :
    (trimRightWs l).head? = l.head? := by
  cases l with
  | nil => rfl
  | cons c rest =>
    cases hr : trimRightWs rest with
    | nil =>
      rw [trimRightWs_cons_nil hr] at h ⊢
      by_cases hc : isJsWs c = true
      · simp [hc] at h
      · simp [hc]
    | cons d t => rw [trimRightWs_cons_cons hr]; rfl

theorem trimRightWs_mem {c : Char} {l : List Char}
    (h : c ∈ trimRightWs l) : c ∈ l := by
  induction l with
  | nil => simp [trimRightWs] at h
  | cons a rest ih =>
    cases hr : trimRightWs rest with
    | nil =>
      rw [trimRightWs_cons_nil hr] at h
      by_cases ha : isJsWs a = true
      · simp [ha] at h
      · simp [ha] at h
        simp [h]
    | cons d t =>
      rw [trimRightWs_cons_cons hr] at h
      rcases List.mem_cons.mp h with h1 | h2
      · simp [h1]
      · exact List.mem_cons_of_mem _ (ih (hr ▸ h2))

theorem trimRightWs_noConsec {l : List Char}
    (h : noConsecWs l = true) : noConsecWs (trimRightWs l) = true := by
  induction l with
  | nil => rfl
  | cons c rest ih =>
    have hrest := noConsecWs_tail h
    cases hr : trimRightWs rest with
    | nil =>
      rw [trimRightWs_cons_nil hr]
      by_cases hc : isJsWs c = true <;> simp [hc, noConsecWs]
    | cons d t =>
      rw [trimRightWs_cons_cons hr]
      have hne : trimRightWs rest ≠ [] := by rw [hr]; exact List.noConfusion
      have hhead : rest.head? = some d := by
        rw [← trimRightWs_head? hne, hr]; rfl
      cases rest with
      | nil => simp at hhead
      | cons e rest2 =>
        have hed : e = d := by simpa using hhead
        subst hed
        have hpair : (isJsWs c && isJsWs e) = false := by
          have hcopy := h
          rw [noConsecWs, Bool.and_eq_true, Bool.not_eq_true'] at hcopy
          exact hcopy.1
        exact noConsecWs_cons_of
          (fun x hx => by
            simp only [List.head?, Option.some.injEq] at hx
            rw [← hx]; exact hpair)
          (hr ▸ ih hrest)

theorem trimRightWs_getLast? {l : List Char} :
    ∀ c, (trimRightWs l).getLast? = some c → isJsWs c = false := by
  induction l with
  | nil => intro c hc; simp [trimRightWs] at hc
  | cons a rest ih =>
    intro c hc
    cases hr : trimRightWs rest with
    | nil =>
      rw [trimRightWs_cons_nil hr] at hc
      by_cases ha : isJsWs a = true
      · simp [ha] at hc
      · simp [ha] at hc
        subst hc
        simpa using ha
    | cons d t =>
      rw [trimRightWs_cons_cons hr, List.getLast?_cons_cons, ← hr] at hc
      exact ih c hc

theorem head?_dropWhile_ws (l : List Char) :
    ∀ c, (l.dropWhile isJsWs).head? = some c → isJsWs c = false := by
  induction l with
  | nil => intro c hc; simp at hc
  | cons a rest ih =>
    intro c hc
    rw [List.dropWhile_cons] at hc
    by_cases ha : isJsWs a = true
    · rw [if_pos ha] at hc; exact ih c hc
    · rw [if_neg ha] at hc
      simp only [List.head?, Option.some.injEq] at hc
      rw [← hc]
      simpa using ha

theorem noConsecWs_dropWhile {l : List Char} (p : Char → Bool)
    (h : noConsecWs l = true) : noConsecWs (l.dropWhile p) = true := by
  induction l with
  | nil => simpa using h
  | cons a rest ih =>
    rw [List.dropWhile_cons]
    by_cases ha : p a = true
    · rw [if_pos ha]; exact ih (noConsecWs_tail h)
    · rw [if_neg ha]; exact h

theorem jsTrim_eq_nil_iff (l : List Char) :
    jsTrim l = [] ↔ ∀ c ∈ l, isJsWs c = true := by
  rw [jsTrim, trimRightWs_eq_nil_iff]
  constructor
  · intro hdrop c hc
    have hsplit : c ∈ l.takeWhile isJsWs ++ l.dropWhile isJsWs := by
      rw [List.takeWhile_append_dropWhile]
      exact hc
    rcases List.mem_append.mp hsplit with h1 | h2
    · exact List.mem_takeWhile_imp h1
    · exact hdrop c h2
  · intro hall c hc
    exact hall c ((List.dropWhile_sublist isJsWs).subset hc)

theorem collapse_invariants (l : List Char) :
    ((∀ c ∈ collapseRuns l, isJsWs c = true → c = ' ') ∧
      noConsecWs (collapseRuns l) = true) ∧
    ((∀ c ∈ collapseAfterWs l, isJsWs c = true → c = ' ') ∧
      noConsecWs (collapseAfterWs l) = true ∧
      (∀ c, (collapseAfterWs l).head? = some c → isJsWs c = false)) := by
  induction l with
  | nil => simp [collapseRuns, collapseAfterWs, noConsecWs]
  | cons a rest ih =>
    obtain ⟨⟨hRspace, hRno⟩, hAspace, hAno, hAhead⟩ := ih
    by_cases ha : isJsWs a = true
    · rw [show collapseRuns (a :: rest) = ' ' :: collapseAfterWs rest by
        rw [collapseRuns, if_pos ha]]
      rw [show collapseAfterWs (a :: rest) = collapseAfterWs rest by
        rw [collapseAfterWs, if_pos ha]]
      refine ⟨⟨?_, ?_⟩, hAspace, hAno, hAhead⟩
      · intro c hc _
        rcases List.mem_cons.mp hc with h1 | h2
        · exact h1
        · exact hAspace c h2 (by assumption)
      · refine noConsecWs_cons_of (fun c hc => ?_) hAno
        rw [hAhead c hc, Bool.and_false]
    · rw [show collapseRuns (a :: rest) = a :: collapseRuns rest by
        rw [collapseRuns, if_neg ha]]
      rw [show collapseAfterWs (a :: rest) = a :: collapseRuns rest by
        rw [collapseAfterWs, if_neg ha]]
      have hspace : ∀ c ∈ a :: collapseRuns rest, isJsWs c = true → c = ' ' := by
        intro c hc hws
        rcases List.mem_cons.mp hc with h1 | h2
        · rw [h1] at hws; exact absurd hws ha
        · exact hRspace c h2 hws
      have hno : noConsecWs (a :: collapseRuns rest) = true := by
        refine noConsecWs_cons_of (fun c _ => ?_) hRno
        rw [Bool.not_eq_true] at ha
        rw [ha, Bool.false_and]
      refine ⟨⟨hspace, hno⟩, hspace, hno, ?_⟩
      intro c hc
      simp only [List.head?, Option.some.injEq] at hc
      rw [← hc, ← Bool.not_eq_true]
      exact ha

theorem collapse_mem_of_not_ws (l : List Char) :
    (∀ c ∈ l, isJsWs c = false → c ∈ collapseRuns l) ∧
    (∀ c ∈ l, isJsWs c = false → c ∈ collapseAfterWs l) := by
  induction l with
  | nil => simp
  | cons a rest ih =>
    obtain ⟨ihR, ihA⟩ := ih
    by_cases ha : isJsWs a = true
    · rw [show collapseRuns (a :: rest) = ' ' :: collapseAfterWs rest by
        rw [collapseRuns, if_pos ha]]
      rw [show collapseAfterWs (a :: rest) = collapseAfterWs rest by
        rw [collapseAfterWs, if_pos ha]]
      constructor
      · intro c hc hcw
        rcases List.mem_cons.mp hc with h1 | h2
        · rw [h1] at hcw; rw [hcw] at ha; exact absurd ha (by simp)
        · exact List.mem_cons_of_mem _ (ihA c h2 hcw)
      · intro c hc hcw
        rcases List.mem_cons.mp hc with h1 | h2
        · rw [h1] at hcw; rw [hcw] at ha; exact absurd ha (by simp)
        · exact ihA c h2 hcw
    · rw [show collapseRuns (a :: rest) = a :: collapseRuns rest by
        rw [collapseRuns, if_neg ha]]
      rw [show collapseAfterWs (a :: rest) = a :: collapseRuns rest by
        rw [collapseAfterWs, if_neg ha]]
      constructor <;>
      · intro c hc hcw
        rcases List.mem_cons.mp hc with h1 | h2
        · rw [h1]; exact List.mem_cons_self a _
        · exact List.mem_cons_of_mem _ (ihR c h2 hcw)

theorem string_mk_eq_empty_iff (l : List Char) : (⟨l⟩ : String) = "" ↔ l = [] := by
  constructor
  · intro h
    exact congrArg String.data h
  · intro h
    rw [h]

/-- The four structural facts about every `normalizeWhitespace` output: its
only whitespace character is the plain space, no two adjacent characters are
whitespace, and it neither starts nor ends with whitespace. -/
theorem normalizeWhitespace_props (s : String) :
    (∀ c ∈ (normalizeWhitespace s).data, isJsWs c = true → c = ' ') ∧
    noConsecWs (normalizeWhitespace s).data = true ∧
    (∀ c, (normalizeWhitespace s).data.head? = some c → isJsWs c = false) ∧
    (∀ c, (normalizeWhitespace s).data.getLast? = some c → isJsWs c = false) := by
  have hdata : (normalizeWhitespace s).data =
      trimRightWs ((collapseRuns s.data).dropWhile isJsWs) := rfl
  obtain ⟨⟨hspace, hno⟩, -⟩ := collapse_invariants s.data
  refine ⟨?_, ?_, ?_, ?_⟩
  · intro c hc hws
    rw [hdata] at hc
    exact hspace c
      ((List.dropWhile_sublist isJsWs).subset (trimRightWs_mem hc)) hws
  · rw [hdata]
    exact trimRightWs_noConsec (noConsecWs_dropWhile isJsWs hno)
  · intro c hc
    rw [hdata] at hc
    by_cases hnil : trimRightWs ((collapseRuns s.data).dropWhile isJsWs) = []
    · rw [hnil] at hc; exact absurd hc (by simp)
    · rw [trimRightWs_head? hnil] at hc
      exact head?_dropWhile_ws _ c hc
  · intro c hc
    rw [hdata] at hc
    exact trimRightWs_getLast? c hc

/-- A string whose `trim` is non-empty normalizes to a non-empty string. -/
theorem normalizeWhitespace_ne_empty (s : String) (h : jsTrimStr s ≠ "") :
    normalizeWhitespace s ≠ "" := by
  have hne : jsTrim s.data ≠ [] := by
    intro habs
    exact h (by rw [jsTrimStr, string_mk_eq_empty_iff]; exact habs)
  have hex : ∃ c ∈ s.data, isJsWs c = false := by
    by_contra habs
    push_neg at habs
    exact hne ((jsTrim_eq_nil_iff s.data).mpr
      (fun c hc => by simpa using habs c hc))
  obtain ⟨c, hc, hcw⟩ := hex
  have hmem : c ∈ collapseRuns s.data := (collapse_mem_of_not_ws s.data).1 c hc hcw
  intro habs
  rw [normalizeWhitespace, string_mk_eq_empty_iff, jsTrim_eq_nil_iff] at habs
  rw [habs c hmem] at hcw
  exact Bool.noConfusion hcw

-- ─────────────────────────────────────────────────────────────────────────────
-- The article flattening equals the spec-side rendering
-- ─────────────────────────────────────────────────────────────────────────────

theorem appendItems_eq (acc : String) (items : List String) :
    appendItems acc items = acc ++ specRenderItems items := by
  induction items generalizing acc with
  | nil => simp [appendItems, specRenderItems]
  | cons itemContent rest ih =>
    rw [specRenderItems, show appendItems acc (itemContent :: rest) =
      appendItems (if jsTrimStr itemContent ≠ "" then acc ++ "\n  " ++ itemContent else acc)
        rest from rfl, ih]
    by_cases h : jsTrimStr itemContent ≠ ""
    · rw [if_pos h, if_pos h]
      simp [String.append_assoc]
    · rw [if_neg h, if_neg h, String.empty_append]

theorem appendParagraph_eq (acc : String) (para : Paragraph) :
    appendParagraph acc para =
      acc ++ ((if jsTrimStr para.content ≠ "" then "\n" ++ para.content else "") ++
        specRenderItems para.items) := by
  rw [appendParagraph, appendItems_eq]
  by_cases h : jsTrimStr para.content ≠ ""
  · rw [if_pos h, if_pos h]
    simp [String.append_assoc]
  · rw [if_neg h, if_neg h, String.empty_append]

theorem foldl_appendParagraph_eq (acc : String) (paras : List Paragraph) :
    paras.foldl appendParagraph acc = acc ++ specRenderParagraphs paras := by
  induction paras generalizing acc with
  | nil => simp [specRenderParagraphs]
  | cons para rest ih =>
    rw [List.foldl_cons, ih, appendParagraph_eq, specRenderParagraphs,
      String.append_assoc]

/-- The imperative `fullContent` accumulation of `parseLawXml` computes the
spec's flattened rendering of the article. -/
theorem assembleContent_eq_specFlatten (article : Article) :
    assembleContent article = specFlatten article := by
  rw [assembleContent, specFlatten, foldl_appendParagraph_eq]

-- ─────────────────────────────────────────────────────────────────────────────
-- Claim theorems
-- ─────────────────────────────────────────────────────────────────────────────

/-- C1: when every response is HTTP 500 and `maxRetries = 3` (the default),
`fetchWithRateLimit` performs exactly `maxRetries + 1 = 4` request attempts
with strictly increasing backoff delays of 2^(attempt+1) seconds
(2000 ms, 4000 ms, 8000 ms) — but then it returns the final 500 response as a
normal `FetchResult` instead of raising: the `throw` after the loop is never
reached, contradicting the claim that exhausting retries raises. -/
theorem fetchWithRateLimit_exhaustion_returns_normally :
    fetchWithRateLimit (fun _ => { status := 500, body := "", contentType := "" }) 3 =
      .ok { status := 500, body := "", contentType := "" } 4 [2000, 4000, 8000] ∧
    (2000 < 4000 ∧ 4000 < 8000) ∧
    (∀ attempts delays,
      fetchWithRateLimit (fun _ => { status := 500, body := "", contentType := "" }) 3 ≠
        .thrown attempts delays) := by
  refine ⟨rfl, by decide, ?_⟩
  intro attempts delays h
  rw [show fetchWithRateLimit (fun _ => { status := 500, body := "", contentType := "" }) 3 =
    .ok { status := 500, body := "", contentType := "" } 4 [2000, 4000, 8000] from rfl] at h
  exact FetchOutcome.noConfusion h

/-- C2: the orchestrator's 404-stub id and the parser's document id are
computed by the identical rule `"act-" + (lawNumber || sourceId)`: whenever
the law-detail XML carries the same `lawNumber` as the index entry, the stub
seed's id equals the id `parseLawXml` returns for the entry's `lawId`. -/
theorem stub_id_eq_parser_id (x : LawXml) (entry : LawIndexEntry)
    (h : x.lawNumber = entry.lawNumber) :
    (minimalStubSeed entry).id = (parseLawXml x entry.lawId).id := by
  simp [minimalStubSeed, parseLawXml, h]

theorem stub_id_eq_parser_id_witness :
    (minimalStubSeed ⟨"개인정보 보호법", "111", "20300", "", "", "", ""⟩).id =
      (parseLawXml ⟨"개인정보 보호법", "", "20300", "", "", "", []⟩ "111").id :=
  stub_id_eq_parser_id _ _ rfl

/-- C8 counterexample: `"2020.01.01"` is not an 8-digit numeric string, yet
`formatDate` rewrites it to `"2020-01-01"` rather than returning it
unchanged, because the implementation strips non-digits before testing the
digit count. -/
theorem formatDate_rewrites_dotted_date :
    formatDate "2020.01.01" = "2020-01-01" ∧
    ("2020.01.01" : String) ≠ "2020-01-01" ∧
    ¬("2020.01.01".length = 8 ∧ "2020.01.01".data.all Char.isDigit = true) := by
  refine ⟨by decide, by decide, by decide⟩

/-- C8 as amended: an 8-digit all-numeric string is rewritten to
`YYYY-MM-DD`; more generally, any string of length at least 8 whose
characters contain exactly 8 digits is rewritten to the hyphenated form of
those digits; strings shorter than 8 characters or with a digit count other
than 8 pass through unchanged, with no validation and no error. -/
theorem formatDate_digit_spec (s : String) :
    (formatDate s =
      if 8 ≤ s.length ∧ (s.data.filter Char.isDigit).length = 8
      then hyphenateDate (s.data.filter Char.isDigit)
      else s) ∧
    (s.length = 8 → s.data.all Char.isDigit = true →
      formatDate s = hyphenateDate s.data) := by
  constructor
  · rw [formatDate]
    by_cases h : s.length < 8
    · rw [if_pos h, if_neg]
      intro ⟨h8, _⟩
      omega
    · rw [if_neg h]
      by_cases hlen : (s.data.filter Char.isDigit).length = 8
      · rw [if_pos hlen, if_pos ⟨by omega, hlen⟩]
      · rw [if_neg hlen, if_neg]
        intro ⟨_, habs⟩
        exact hlen habs
  · intro h8 hdig
    have hfilter : s.data.filter Char.isDigit = s.data :=
      List.filter_eq_self.mpr (fun a ha => by
        rw [List.all_eq_true] at hdig
        exact hdig a ha)
    have hslen : s.data.length = 8 := h8
    rw [formatDate, if_neg (by omega), hfilter, if_pos hslen]

/-- C3 counterexample: for an article with content `"A"` and one paragraph
with content `"B"`, the claim prescribes the multi-line content
`"A" ++ "\n" ++ "B"`, but the stored provision content is `"A B"`: the final
`replace(/\s+/g, ' ').trim()` collapses the newline away, so the stored
string is single-line, not multi-line. -/
theorem provision_content_not_multiline :
    ((parseLawXml ⟨"T", "", "1", "", "", "", [⟨"제1조", "", "A", [⟨"B", []⟩]⟩]⟩
        "L1").provisions.map ParsedProvision.content = ["A B"]) ∧
    ("A B" : String) ≠ "A" ++ "\n" ++ "B" ∧
    ("A B" : String).data.all (· ≠ '\n') = true := by
  refine ⟨by decide, by decide, by decide⟩

/-- C3 as amended: every provision's content is the spec's flattened
rendering of its article (base article content, each non-blank paragraph
appended on a new line, each non-blank item on its own two-space-indented
line) passed through whitespace normalization
(`replace(/\s+/g, ' ').trim()`), which collapses the line structure into a
single flat one-line string. -/
theorem provision_content_eq_normalized_flattening
    (x : LawXml) (lawId : String) (p : ParsedProvision)
    (hp : p ∈ (parseLawXml x lawId).provisions) :
    ∃ article ∈ x.articles, p.content = normalizeWhitespace (specFlatten article) := by
  rw [parseLawXml] at hp
  simp only [List.mem_filterMap] at hp
  obtain ⟨article, hmem, hsome⟩ := hp
  refine ⟨article, hmem, ?_⟩
  rw [articleToProvision] at hsome
  by_cases h1 : article.number = "" && article.content = ""
  · rw [if_pos h1] at hsome
    exact Option.noConfusion hsome
  · rw [if_neg h1] at hsome
    by_cases h2 : jsTrimStr (assembleContent article) ≠ ""
    · rw [if_pos h2] at hsome
      have := Option.some.inj hsome
      rw [← this, ← assembleContent_eq_specFlatten]
    · rw [if_neg h2] at hsome
      exact Option.noConfusion hsome

theorem provision_content_eq_normalized_flattening_witness :
    ∃ article ∈ (⟨"T", "", "1", "", "", "",
        [⟨"제1조", "", "A", [⟨"B", ["c1"]⟩]⟩]⟩ : LawXml).articles,
      (⟨"art-1", "제1조", "", "A B c1"⟩ : ParsedProvision).content =
        normalizeWhitespace (specFlatten article) :=
  provision_content_eq_normalized_flattening
    ⟨"T", "", "1", "", "", "", [⟨"제1조", "", "A", [⟨"B", ["c1"]⟩]⟩]⟩ "L1"
    ⟨"art-1", "제1조", "", "A B c1"⟩ (by decide)

/-- C4: `parseLawList` computes `hasNextPage` as "the page held at least one
full page's worth of entries (fixed page size 100) and the entries seen are
still fewer than `totalCount`", and it does not read any upstream
next-page field. -/
theorem hasNextPage_computed (root : LawListXml) :
    ((parseLawList root).hasNextPage = true ↔
      (100 ≤ (parseLawList root).entries.length ∧
        (parseLawList root).entries.length < (parseLawList root).totalCount)) ∧
    (∀ b : Option Bool,
      (parseLawList { root with upstreamHasNextPage := b }).hasNextPage =
        (parseLawList root).hasNextPage) := by
  constructor
  · simp [parseLawList]
  · intro b
    rfl

/-- C5 counterexample: two provisions share ref `art-9`; the first
(`content "ABCDE"`, no title) is longer, so it survives — but its missing
title is NOT backfilled from the discarded second provision's title `"T"`:
the survivor keeps `none`, contradicting the claim that the title is
backfilled from whichever of the two lacked one. -/
theorem dedupe_survivor_title_not_backfilled :
    dedupeProvisions
      [⟨"art-9", none, "제9조", none, "ABCDE", none⟩,
       ⟨"art-9", none, "제9조", some "T", "A", none⟩] =
      [⟨"art-9", none, "제9조", none, "ABCDE", none⟩] ∧
    (⟨"art-9", none, "제9조", none, "ABCDE", none⟩ : ProvisionSeed).title = none ∧
    (⟨"art-9", none, "제9조", some "T", "A", none⟩ : ProvisionSeed).title = some "T" := by
  refine ⟨by decide, rfl, rfl⟩

/-- C5 as amended: of two provisions with the same trimmed ref, the one with
the strictly longer whitespace-normalized content is kept (on a tie, the
first); but the title is backfilled only in the replacement direction — when
the later, strictly longer provision wins and lacks a title, it takes the
earlier one's title; when the earlier provision survives, its title is left
unchanged even if it lacks one and the later had one. -/
theorem dedupe_pair_spec (p1 p2 : ProvisionSeed)
    (h : jsTrimStr p1.provision_ref = jsTrimStr p2.provision_ref) :
    dedupeProvisions [p1, p2] =
      if (normalizeWhitespace p2.content).length >
          (normalizeWhitespace p1.content).length
      then [{ p2 with
              provision_ref := jsTrimStr p2.provision_ref
              title := p2.title.orElse fun _ => p1.title }]
      else [{ p1 with provision_ref := jsTrimStr p1.provision_ref }] := by
  simp only [dedupeProvisions, List.foldl_cons, List.foldl_nil]
  rw [show dedupeStep [] p1 =
    [(jsTrimStr p1.provision_ref, { p1 with provision_ref := jsTrimStr p1.provision_ref })]
    from rfl]
  rw [dedupeStep, ← h]
  rw [show mapGet
      [(jsTrimStr p1.provision_ref, { p1 with provision_ref := jsTrimStr p1.provision_ref })]
      (jsTrimStr p1.provision_ref) =
    some { p1 with provision_ref := jsTrimStr p1.provision_ref } by
      simp [mapGet]]
  simp only [gt_iff_lt]
  by_cases hlen : (normalizeWhitespace p1.content).length <
      (normalizeWhitespace p2.content).length
  · rw [if_pos hlen, if_pos hlen]
    simp [mapSet, h]
  · rw [if_neg hlen, if_neg hlen]
    rfl

theorem dedupe_pair_spec_witness :
    dedupeProvisions
      [⟨"art-1", none, "제1조", none, "A", none⟩,
       ⟨"art-1", none, "제1조", some "T", "ABCDE", none⟩] =
      if (normalizeWhitespace
            (⟨"art-1", none, "제1조", some "T", "ABCDE", none⟩ : ProvisionSeed).content).length >
          (normalizeWhitespace
            (⟨"art-1", none, "제1조", none, "A", none⟩ : ProvisionSeed).content).length
      then [{ (⟨"art-1", none, "제1조", some "T", "ABCDE", none⟩ : ProvisionSeed) with
              provision_ref := jsTrimStr "art-1"
              title := (some "T").orElse fun _ => (none : Option String) }]
      else [{ (⟨"art-1", none, "제1조", none, "A", none⟩ : ProvisionSeed) with
              provision_ref := jsTrimStr "art-1" }] :=
  dedupe_pair_spec _ _ rfl

/-- C6: in the content phase, a 404 fetch writes the minimal stub seed —
whose provisions are empty and whose status is `in_force` — and increments
both the failed and the processed counter by one; any other non-200 status,
and any parse-time exception on a 200 response, writes no seed file and
increments the failed counter (and processed), so a later re-run retries the
document. -/
theorem content_phase_error_handling (law : LawIndexEntry) :
    (∀ parse : Except Unit LawXml,
      contentStep law false (.ok (404, parse)) =
        { seedWritten := some (minimalStubSeed law), processedInc := 1,
          skippedInc := 0, failedInc := 1, provisionsInc := 0 }) ∧
    (minimalStubSeed law).provisions = [] ∧
    (minimalStubSeed law).status = .in_force ∧
    (∀ (status : Nat) (parse : Except Unit LawXml), status ≠ 200 → status ≠ 404 →
      contentStep law false (.ok (status, parse)) =
        { seedWritten := none, processedInc := 1, skippedInc := 0,
          failedInc := 1, provisionsInc := 0 }) ∧
    (contentStep law false (.ok (200, .error ())) =
      { seedWritten := none, processedInc := 1, skippedInc := 0,
        failedInc := 1, provisionsInc := 0 }) := by
  refine ⟨fun parse => rfl, rfl, rfl, ?_, rfl⟩
  intro status parse h200 h404
  simp [contentStep, h200, h404]

/-- C7: the drift checker exits 2 exactly when the store is missing or the
run itself fails; it exits 1 exactly when the run succeeds and some
discovered entry's derived id `"act-" + (lawNumber || lawId)` is absent from
the local store's document-id set; it exits 0 exactly when the run succeeds
and every derived id is present (it never looks at a present document's
content); and against a local store {act-X, act-Y} with discovery returning
{act-X, act-Z} it reports exactly the one new document act-Z and exits 1. -/
theorem checker_exit_codes (run : CheckRun) :
    (checkExitCode run = 2 ↔ (run.dbExists = false ∨ run.runError = true)) ∧
    (checkExitCode run = 1 ↔ (run.dbExists = true ∧ run.runError = false ∧
      ∃ entry ∈ run.recentEntries,
        run.localDocs.contains (checkerDocumentId entry) = false)) ∧
    (checkExitCode run = 0 ↔ (run.dbExists = true ∧ run.runError = false ∧
      ∀ entry ∈ run.recentEntries,
        run.localDocs.contains (checkerDocumentId entry) = true)) ∧
    ((newLaws ["act-X", "act-Y"]
        [⟨"Title X", "idX", "X", "", "", "", ""⟩,
         ⟨"Title Z", "idZ", "Z", "", "", "", ""⟩]).map UpdateHit.document_id =
      ["act-Z"] ∧
     checkExitCode
        ⟨true, false, ["act-X", "act-Y"],
         [⟨"Title X", "idX", "X", "", "", "", ""⟩,
          ⟨"Title Z", "idZ", "Z", "", "", "", ""⟩]⟩ = 1) := by
  obtain ⟨db, err, localDocs, entries⟩ := run
  refine ⟨?_, ?_, ?_, by decide, by decide⟩ <;>
    cases db <;> cases err <;>
      (simp [checkExitCode, newLaws, List.length_pos, List.filterMap_eq_nil_iff];
        try (split <;> simp_all))

/-- C9: two discovery entries with distinct `lawId`s but the same non-empty
`lawNumber` produce two distinct seed files (named by `lawId`) whose `id`
fields are equal, and the full rebuild's transactional insert into
`legal_documents` — whose `id` is the primary key — fails on the second
insert and aborts the whole load. -/
theorem duplicate_law_number_aborts_rebuild (e1 e2 : LawIndexEntry)
    (hid : e1.lawId ≠ e2.lawId) (hnum : e1.lawNumber = e2.lawNumber)
    (hne : e1.lawNumber ≠ "") :
    seedFileName e1 ≠ seedFileName e2 ∧
    (minimalStubSeed e1).id = (minimalStubSeed e2).id ∧
    insertDocuments [minimalStubSeed e1, minimalStubSeed e2] =
      .error (minimalStubSeed e2).id := by
  have hids : (minimalStubSeed e1).id = (minimalStubSeed e2).id := by
    simp only [minimalStubSeed, hnum]
    simp only [if_neg (hnum ▸ hne)]
  refine ⟨?_, hids, ?_⟩
  · intro habs
    apply hid
    have hdata := congrArg String.data habs
    rw [seedFileName, seedFileName, String.data_append, String.data_append] at hdata
    exact String.ext (List.append_cancel_right hdata)
  · simp [insertDocuments, insertDocumentsGo, hids]

theorem duplicate_law_number_aborts_rebuild_witness :
    seedFileName ⟨"법 A", "100", "777", "", "", "", ""⟩ ≠
      seedFileName ⟨"법 B", "200", "777", "", "", "", ""⟩ ∧
    (minimalStubSeed ⟨"법 A", "100", "777", "", "", "", ""⟩).id =
      (minimalStubSeed ⟨"법 B", "200", "777", "", "", "", ""⟩).id ∧
    insertDocuments
      [minimalStubSeed ⟨"법 A", "100", "777", "", "", "", ""⟩,
       minimalStubSeed ⟨"법 B", "200", "777", "", "", "", ""⟩] =
      .error (minimalStubSeed ⟨"법 B", "200", "777", "", "", "", ""⟩).id :=
  duplicate_law_number_aborts_rebuild _ _ (by decide) rfl (by decide)

/-- C10: every provision emitted by `parseLawXml` has non-empty content whose
only whitespace character is the plain space — in particular it contains no
newline — with no two consecutive whitespace characters and no leading or
trailing whitespace; and an article whose assembled content is empty after
trimming yields no provision at all. -/
theorem provision_content_invariants (x : LawXml) (lawId : String) :
    (∀ p ∈ (parseLawXml x lawId).provisions,
      p.content ≠ "" ∧
      '\n' ∉ p.content.data ∧
      (∀ c ∈ p.content.data, isJsWs c = true → c = ' ') ∧
      noConsecWs p.content.data = true ∧
      (∀ c, p.content.data.head? = some c → isJsWs c = false) ∧
      (∀ c, p.content.data.getLast? = some c → isJsWs c = false)) ∧
    (∀ article ∈ x.articles, jsTrimStr (assembleContent article) = "" →
      articleToProvision article = none) := by
  constructor
  · intro p hp
    rw [parseLawXml] at hp
    simp only [List.mem_filterMap] at hp
    obtain ⟨article, -, hsome⟩ := hp
    rw [articleToProvision] at hsome
    by_cases h1 : article.number = "" && article.content = ""
    · rw [if_pos h1] at hsome
      exact Option.noConfusion hsome
    · rw [if_neg h1] at hsome
      by_cases h2 : jsTrimStr (assembleContent article) ≠ ""
      · rw [if_pos h2] at hsome
        have hcontent : p.content = normalizeWhitespace (assembleContent article) := by
          rw [← Option.some.inj hsome]
        obtain ⟨hspace, hno, hhead, hlast⟩ :=
          normalizeWhitespace_props (assembleContent article)
        rw [hcontent]
        refine ⟨normalizeWhitespace_ne_empty _ h2, ?_, hspace, hno, hhead, hlast⟩
        intro habs
        have := hspace '\n' habs (by decide)
        exact absurd this (by decide)
      · rw [if_neg h2] at hsome
        exact Option.noConfusion hsome
  · intro article _ hempty
    rw [articleToProvision]
    by_cases h1 : article.number = "" && article.content = ""
    · rw [if_pos h1]
    · rw [if_neg h1, if_neg (by simpa using hempty)]
